import Mathlib

/-!
Verification development for the tile-index / swept-collision / interpolation
core of the `jostle` 2D crowd-collision engine.

Conventions of the shallow embedding:

* Bevy `Entity` identifiers are modelled as `ℕ`.
* `IVec2` coordinates are `ℤ`; `f32` scalars are modelled as `ℚ` (exact
  arithmetic); `f32::sqrt` is passed in as an explicit function parameter
  `sqrt : ℚ → ℚ` wherever the source calls it, so every definition stays
  executable and theorems quantify over the square-root routine.
* Division on `ℚ` is total with `q / 0 = 0`; the Rust source divides in
  `f32`, where division by zero produces an infinity or NaN.  No theorem
  below depends on the value produced by a zero divisor, only on whether
  the dividing branch is reached.
* The `HashMap<Tile, SmallVec<[Entity; 7]>>` backing `TileIndex` is
  modelled as the total function `Tile → Option (List ℕ)`: `none` stands
  for an absent key, `some bucket` for a present entry, and bucket order
  is tracked exactly (insertion appends, removal is swap-remove).
-/

/-- A tile `(layer, ix, iy)`; mirrors `Tile(Entity, IVec2)` in `src/tile.rs`. -/
structure Tile where
  layer : ℕ
  x : ℤ
  y : ℤ
deriving DecidableEq, Repr

/-- The `TileChanged` event from `src/tile.rs`. -/
structure TileChanged where
  agent : ℕ
  old : Option Tile
  new : Option Tile
deriving DecidableEq, Repr

/-- The `TileIndex` resource: reverse map from tiles to agent buckets.
`none` models an absent `HashMap` entry. -/
def TileIndex : Type := Tile → Option (List ℕ)

/-- `Tile::neighborhood`: the 9 tiles of the Chebyshev ball of radius 1,
in the order the source lists them. -/
def Tile.neighborhood (t : Tile) : List Tile :=
  [ ⟨t.layer, t.x - 1, t.y - 1⟩
  , ⟨t.layer, t.x,     t.y - 1⟩
  , ⟨t.layer, t.x + 1, t.y - 1⟩
  , ⟨t.layer, t.x - 1, t.y⟩
  , ⟨t.layer, t.x,     t.y⟩
  , ⟨t.layer, t.x + 1, t.y⟩
  , ⟨t.layer, t.x - 1, t.y + 1⟩
  , ⟨t.layer, t.x,     t.y + 1⟩
  , ⟨t.layer, t.x + 1, t.y + 1⟩ ]

/-- `Iterator::position`: index of the first element satisfying `p`. -/
def position (p : ℕ → Bool) : List ℕ → Option ℕ
  | [] => none
  | x :: xs => if p x then some 0 else (position p xs).map (· + 1)

/-- `Vec::swap_remove(p)`: remove the element at index `p`, replacing it by
the last element. -/
def swapRemove (l : List ℕ) (p : ℕ) : List ℕ :=
  match l.getLast? with
  | none => l
  | some last => (l.set p last).dropLast

/-- Body of `TileIndex::remove` acting on one bucket: find the agent's
position and swap-remove it; no-op when the agent is absent. -/
def bucketRemove (id : ℕ) (agents : List ℕ) : List ℕ :=
  match position (fun a => a == id) agents with
  | some pos => swapRemove agents pos
  | none => agents

namespace TileIndex

/-- `TileIndex::insert`: `self.index.entry(tile).or_default().push(id)`. -/
def insert (idx : TileIndex) (id : ℕ) (tile : Tile) : TileIndex :=
  fun t => if t = tile then some ((idx tile).getD [] ++ [id]) else idx t

/-- `TileIndex::remove`: swap-remove the agent from the bucket if the entry
exists, deleting the entry when the bucket ends up empty. -/
def remove (idx : TileIndex) (id : ℕ) (tile : Tile) : TileIndex :=
  fun t =>
    if t = tile then
      match idx tile with
      | none => none
      | some agents =>
        if bucketRemove id agents = [] then none else some (bucketRemove id agents)
    else idx t

/-- `TileIndex::get`: the bucket's agents, or the empty slice when the tile
has no bucket. -/
def get (idx : TileIndex) (tile : Tile) : List ℕ :=
  match idx tile with
  | some agents => agents
  | none => []

/-- `TileIndex::insert_neighborhood`. -/
def insert_neighborhood (idx : TileIndex) (agent : ℕ) (tile : Tile) : TileIndex :=
  tile.neighborhood.foldl (fun i t => i.insert agent t) idx

/-- `TileIndex::remove_neighborhood`. -/
def remove_neighborhood (idx : TileIndex) (agent : ℕ) (tile : Tile) : TileIndex :=
  tile.neighborhood.foldl (fun i t => i.remove agent t) idx

/-- `TileIndex::update`: apply one `TileChanged` event, with the cardinal
(3 remove + 3 insert) and diagonal (5 + 5) incremental shortcuts of
`src/tile.rs` lines 71–114. -/
def update (idx : TileIndex) (event : TileChanged) : TileIndex :=
  match event.old, event.new with
  | none, none => idx
  | some old, none => remove_neighborhood idx event.agent old
  | none, some new => insert_neighborhood idx event.agent new
  | some old, some new =>
    if old.layer ≠ new.layer then
      insert_neighborhood (remove_neighborhood idx event.agent old) event.agent new
    else
      let layer := old.layer
      let ox := old.x
      let oy := old.y
      let nx := new.x
      let ny := new.y
      let dx := nx - ox
      let dy := ny - oy
      if dx = 0 ∧ dy = 0 then idx
      else if ((dx = 1 ∨ dx = -1) ∧ dy = 0) ∨ (dx = 0 ∧ (dy = 1 ∨ dy = -1)) then
        ((((((idx.remove event.agent ⟨layer, ox - dx + dy, oy - dy + dx⟩).remove
            event.agent ⟨layer, ox - dx, oy - dy⟩).remove
            event.agent ⟨layer, ox - dx - dy, oy - dy - dx⟩).insert
            event.agent ⟨layer, nx + dx + dy, ny + dy + dx⟩).insert
            event.agent ⟨layer, nx + dx, ny + dy⟩).insert
            event.agent ⟨layer, nx + dx - dy, ny + dy - dx⟩)
      else if (dx = 1 ∨ dx = -1) ∧ (dy = 1 ∨ dy = -1) then
        ((((((((((idx.remove event.agent ⟨layer, ox + dx, oy - dy⟩).remove
            event.agent ⟨layer, ox, oy - dy⟩).remove
            event.agent ⟨layer, ox - dx, oy - dy⟩).remove
            event.agent ⟨layer, ox - dx, oy⟩).remove
            event.agent ⟨layer, ox - dx, oy + dy⟩).insert
            event.agent ⟨layer, nx - dx, ny + dy⟩).insert
            event.agent ⟨layer, nx, ny + dy⟩).insert
            event.agent ⟨layer, nx + dx, ny + dy⟩).insert
            event.agent ⟨layer, nx + dx, ny⟩).insert
            event.agent ⟨layer, nx + dx, ny - dy⟩)
      else
        insert_neighborhood (remove_neighborhood idx event.agent old) event.agent new

end TileIndex

/-- `1` when `t` lies in the Chebyshev ball of radius 1 around `c` (same
layer), else `0`. -/
def inBall (c t : Tile) : ℕ :=
  if t.layer = c.layer ∧ (t.x - c.x).natAbs ≤ 1 ∧ (t.y - c.y).natAbs ≤ 1 then 1 else 0

/-- Expected number of occurrences of an agent in bucket `t` given the
agent's cached tile. -/
def ballCount (cache : Option Tile) (t : Tile) : ℕ :=
  match cache with
  | some c => inBall c t
  | none => 0

/-- Number of occurrences of agent `a` in the bucket of tile `t`. -/
def cnt (idx : TileIndex) (a : ℕ) (t : Tile) : ℕ :=
  (idx.get t).count a

/-- Invariant I1 exactly as the specification states it: every agent whose
cached tile is `some c` appears exactly once in each bucket of
`chebyshev_ball(c, 1)` and in no other bucket.  (Agents whose cached tile is
`none` are unconstrained.) -/
def SpecI1 (idx : TileIndex) (cache : ℕ → Option Tile) : Prop :=
  ∀ b c, cache b = some c → ∀ t, cnt idx b t = inBall c t

/-- The strengthened, inductive invariant: additionally, an agent whose
cached tile is `none` appears in no bucket. -/
def StateInv (idx : TileIndex) (cache : ℕ → Option Tile) : Prop :=
  ∀ b t, cnt idx b t = ballCount (cache b) t

/-! ### Geometry over `ℚ` (model of `glam::Vec2` in `f32`) -/

/-- 2D vector with exact rational components. -/
structure Vec2 where
  x : ℚ
  y : ℚ
deriving DecidableEq, Repr

instance : Zero Vec2 := ⟨⟨0, 0⟩⟩

instance : Add Vec2 := ⟨fun a b => ⟨a.x + b.x, a.y + b.y⟩⟩

instance : Sub Vec2 := ⟨fun a b => ⟨a.x - b.x, a.y - b.y⟩⟩

instance : Neg Vec2 := ⟨fun a => ⟨-a.x, -a.y⟩⟩

instance : SMul ℚ Vec2 := ⟨fun c v => ⟨c * v.x, c * v.y⟩⟩

/-- `Vec2::dot`. -/
def Vec2.dot (a b : Vec2) : ℚ := a.x * b.x + a.y * b.y

/-- `Vec2::length_squared`. -/
def Vec2.lengthSquared (v : Vec2) : ℚ := v.dot v

/-! ### Swept disc–disc and disc–wall solvers (`src/collision.rs`) -/

/-- Coefficient `a = ‖Δv‖²` of the swept quadratic. -/
def collA (dv : Vec2) : ℚ := dv.lengthSquared

/-- Coefficient `b = 2·Δp·Δv`. -/
def collB (dp dv : Vec2) : ℚ := 2 * dp.dot dv

/-- Coefficient `c = ‖Δp‖² − r²`. -/
def collC (dp : Vec2) (r : ℚ) : ℚ := dp.lengthSquared - r * r

/-- Discriminant `b² − 4ac`. -/
def collDiscr (dp dv : Vec2) (r : ℚ) : ℚ :=
  collB dp dv * collB dp dv - 4 * collA dv * collC dp r

/-- Earlier root `t = (−b − √disc)/(2a)`. -/
def collT (sqrt : ℚ → ℚ) (dp dv : Vec2) (r : ℚ) : ℚ :=
  (-collB dp dv - sqrt (collDiscr dp dv r)) / (2 * collA dv)

/-- `solve_agent_collision` from `src/collision.rs` lines 144–173.  The `f32`
square root is the explicit parameter `sqrt`. -/
def solve_agent_collision (sqrt : ℚ → ℚ) (delta_position delta_velocity : Vec2)
    (combined_radius : ℚ) : Option ℚ :=
  let a := delta_velocity.lengthSquared
  let b := 2 * delta_position.dot delta_velocity
  let c := delta_position.lengthSquared - combined_radius * combined_radius
  if a = 0 then none
  else
    let discr := b * b - 4 * a * c
    if discr < 0 then none
    else
      let t := (-b - sqrt discr) / (2 * a)
      if t > 0 then some t
      else if b < 0 then some t
      else none

/-- The four wall normals (`bevy::math::CompassQuadrant`). -/
inductive CompassQuadrant
  | North
  | South
  | East
  | West
deriving DecidableEq, Repr

/-- The projection of agent position and velocity onto a wall's outward
normal, as computed by the `match` at the head of `solve_wall_collision`. -/
def wallProj (agent_position agent_velocity : Vec2) (wall_normal : CompassQuadrant) :
    ℚ × ℚ :=
  match wall_normal with
  | .North => (agent_position.y, agent_velocity.y)
  | .South => (-agent_position.y, -agent_velocity.y)
  | .East => (agent_position.x, agent_velocity.x)
  | .West => (-agent_position.x, -agent_velocity.x)

/-- `solve_wall_collision` from `src/collision.rs` lines 175–195.  Division
on `ℚ` is total (`q / 0 = 0`); in the Rust source the division is in `f32`,
where a zero divisor produces an infinity or NaN — the theorems below only
depend on which branch is reached, not on the value at a zero divisor. -/
def solve_wall_collision (agent_position agent_velocity : Vec2) (agent_radius : ℚ)
    (wall_position : ℤ) (wall_normal : CompassQuadrant) (tile_size : ℚ) : Option ℚ :=
  let projected := wallProj agent_position agent_velocity wall_normal
  if projected.2 < 0 then none
  else
    let delta_position := (wall_position : ℚ) * tile_size - projected.1
    some ((delta_position - agent_radius) / projected.2)

/-! ### Narrow phase of `src/layer.rs` (`LayerAgent`, speed clamp) -/

/-- `LayerAgent` from `src/layer.rs`: id, radius, layer-relative position and
velocity. -/
structure LayerAgent where
  id : ℕ
  radius : ℚ
  position : Vec2
  velocity : Vec2
deriving DecidableEq, Repr

/-- `LayerAgent::solve_collision` from `src/layer.rs` lines 180–211 (the
swept quadratic with a self-collision guard). -/
def LayerAgent.solve_collision (sqrt : ℚ → ℚ) (self target : LayerAgent) : Option ℚ :=
  if self.id = target.id then none
  else
    let position := self.position - target.position
    let velocity := self.velocity - target.velocity
    let radius := self.radius + target.radius
    let a := velocity.lengthSquared
    let b := 2 * position.dot velocity
    let c := position.lengthSquared - radius * radius
    if a = 0 then none
    else
      let discr := b * b - 4 * a * c
      if discr < 0 then none
      else
        let t := (-b - sqrt discr) / (2 * a)
        if t > 0 then some t
        else if b < 0 then some t
        else none

/-- `glam`'s `Vec2::clamp_length_max`: rescale to length `maxLen` when the
squared length exceeds `maxLen²`. -/
def clampLengthMax (sqrt : ℚ → ℚ) (v : Vec2) (maxLen : ℚ) : Vec2 :=
  if maxLen * maxLen < v.lengthSquared then (maxLen / sqrt v.lengthSquared) • v else v

/-- `glam`'s `Vec2::try_normalize`: `none` on a degenerate vector, otherwise
the vector scaled by the reciprocal length. -/
def tryNormalize (sqrt : ℚ → ℚ) (v : Vec2) : Option Vec2 :=
  if v.lengthSquared = 0 then none else some ((1 / sqrt v.lengthSquared) • v)

/-- The candidate-selection iterator chain of `narrow_phase`
(`src/layer.rs` lines 107–112): solve against every candidate, keep the
hits before `dt`, and take the earliest (`min_by_key(FloatOrd(t))`). -/
def narrowPhaseCandidates (sqrt : ℚ → ℚ) (dt : ℚ) (agent : LayerAgent)
    (candidates : List LayerAgent) : Option (LayerAgent × ℚ) :=
  ((candidates.filterMap fun target =>
      (agent.solve_collision sqrt target).map fun t => (target, t)).filter
    fun p => p.2 < dt).argmin Prod.snd

/-- The per-agent velocity pipeline of `narrow_phase` (`src/layer.rs` lines
88–131): skip a zero velocity, clamp the speed to `max_speed = 0.5 / dt`
(this generation of the code uses a unit tile grid, so `tile_size = 1`),
then, when the earliest collision exists and the contact normal is
non-degenerate, project out the closing velocity component.  Returns the
agent's final velocity for this step. -/
def narrowPhaseVelocity (sqrt : ℚ → ℚ) (dt : ℚ) (id : ℕ) (radius : ℚ)
    (pos velocity : Vec2) (candidates : List LayerAgent) : Vec2 :=
  if velocity = 0 then velocity
  else
    let v := clampLengthMax sqrt velocity ((1 / 2) / dt)
    let agent : LayerAgent := ⟨id, radius, pos, v⟩
    match narrowPhaseCandidates sqrt dt agent candidates with
    | none => v
    | some (nearest, t) =>
      let t := max t 0
      let agent_contact := agent.position + t • agent.velocity
      let target_contact := nearest.position + t • nearest.velocity
      match tryNormalize sqrt (agent_contact - target_contact) with
      | none => v
      | some normal =>
        if agent.velocity.dot normal < 0 then v - agent.velocity.dot normal • normal
        else v

/-! ### Interpolation FSM (`src/lerp.rs`) -/

/-- `InterpolationState` from `src/lerp.rs`.  Bevy's `Tick` is modelled
as `ℕ`. -/
inductive InterpolationState
  | none
  | fixed (start : Vec2)
  | interpolated (start : Vec2) (endPos : Vec2) (change_tick : ℕ)
deriving DecidableEq, Repr

/-- The host transform as the FSM observes it: its 2D translation together
with the change tick of the last write (`transform.last_changed()`).  Any
write through the FSM stamps the running system's tick. -/
structure TransformState where
  translation : Vec2
  last_changed : ℕ
deriving DecidableEq, Repr

/-- `glam`'s `Vec2::lerp`. -/
def Vec2.lerp (a b : Vec2) (s : ℚ) : Vec2 := a + s • (b - a)

/-- `update_fixed` from `src/lerp.rs` lines 27–47, for one agent: `tick` is
the change tick the system would stamp on a transform write.  Returns the
updated `(transform, state)`. -/
def update_fixed (tick : ℕ) (transform : TransformState)
    (state : InterpolationState) : TransformState × InterpolationState :=
  match state with
  | .fixed _ => (transform, state)
  | .interpolated _ endPos change_tick =>
    if transform.last_changed = change_tick then
      ({ translation := endPos, last_changed := tick }, .fixed endPos)
    else (transform, .fixed transform.translation)
  | .none => (transform, .fixed transform.translation)

/-- `update_render` from `src/lerp.rs` lines 49–81, for one agent: select
the `(start, end)` pair when interpolation applies, otherwise collapse to
`None` leaving the transform untouched; then write the lerp at the overstep
fraction `α` and record the write tick. -/
def update_render (tick : ℕ) (α : ℚ) (transform : TransformState)
    (state : InterpolationState) : TransformState × InterpolationState :=
  match (match state with
    | .fixed start =>
      if transform.translation ≠ start then some (start, transform.translation)
      else Option.none
    | .interpolated start endPos change_tick =>
      if transform.last_changed = change_tick then some (start, endPos)
      else Option.none
    | .none => Option.none) with
  | Option.none => (transform, .none)
  | some (start, endPos) =>
    ({ translation := start.lerp endPos α, last_changed := tick },
      .interpolated start endPos tick)

/-! ### Collision phase (`collision::process`, `src/collision.rs`) -/

/-- `AgentState` read by `process`.  The `agent` module of the generation
wired to `collision.rs` is not in the source tree; modelled from the spec:
per-agent cache `{position, velocity, tile}` frozen by `update_tile`. -/
structure AgentState where
  position : Vec2
  velocity : Vec2
  tile : Option Tile
deriving DecidableEq, Repr

/-- The `Layer` data `process` reads.  Modelled from the spec: arena
descriptor with `tile_size > 0`. -/
structure LayerC where
  tile_size : ℚ
deriving DecidableEq, Repr

/-- The `Collision` enum local to `src/collision.rs`. -/
inductive CollisionC
  | agent (target : AgentState)
  | wall (normal : CompassQuadrant)
deriving DecidableEq, Repr

/-- `glam`'s `Vec2::normalize_or_zero`: the zero vector when degenerate. -/
def normalizeOrZero (sqrt : ℚ → ℚ) (v : Vec2) : Vec2 :=
  if v.lengthSquared = 0 then 0 else (1 / sqrt v.lengthSquared) • v

/-- `Collision::contact` from `src/collision.rs` lines 119–141: the contact
point and contact normal. -/
def CollisionC.contact (sqrt : ℚ → ℚ) (c : CollisionC) (agent : AgentState)
    (t : ℚ) : Vec2 × Vec2 :=
  let agent_contact := agent.position + t • agent.velocity
  match c with
  | .agent target =>
    let target_contact := target.position + t • target.velocity
    (agent_contact, normalizeOrZero sqrt (agent_contact - target_contact))
  | .wall normal =>
    (agent_contact,
      match normal with
      | .North => ⟨0, 1⟩
      | .South => ⟨0, -1⟩
      | .East => ⟨1, 0⟩
      | .West => ⟨-1, 0⟩)

/-- `Tile::boundaries` is called by `process` but its definition is not in
the source tree.  Modelled from the spec: for each of the 4 cardinal
neighbours of the agent's tile that the `TileMap` predicate reports solid,
the adjoining edge as a `(wall coordinate, wall normal)` pair feeding
`solve_wall_collision` (the projected coordinate is negated for the west
and south directions, matching the sign convention of the projection in
`solve_wall_collision`). -/
def Tile.boundaries (t : Tile) (isSolid : Tile → Bool) :
    List (ℤ × CompassQuadrant) :=
  (if isSolid ⟨t.layer, t.x + 1, t.y⟩ then [(t.x + 1, CompassQuadrant.East)] else [])
  ++ (if isSolid ⟨t.layer, t.x - 1, t.y⟩ then [(-t.x, CompassQuadrant.West)] else [])
  ++ (if isSolid ⟨t.layer, t.x, t.y + 1⟩ then [(t.y + 1, CompassQuadrant.North)] else [])
  ++ (if isSolid ⟨t.layer, t.x, t.y - 1⟩ then [(-t.y, CompassQuadrant.South)] else [])

/-- The `nearest_collision` accumulator step of `process`: keep a candidate
only when its time beats `dt` and the current best. -/
def considerCandidate (dt : ℚ) (nearest : Option (CollisionC × ℚ))
    (c : CollisionC) (t : ℚ) : Option (CollisionC × ℚ) :=
  if t < dt then
    match nearest with
    | Option.none => some (c, t)
    | some (_, current_t) => if t < current_t then some (c, t) else nearest
  else nearest

/-- Per-agent body of `collision::process` (`src/collision.rs` lines
36–116).  `targets` is the target query: entity id to `(radius,
AgentState)` when it succeeds.  Returns the agent's updated
`(transform.xy, velocity)`. -/
def processAgent (sqrt : ℚ → ℚ) (dt : ℚ) (id : ℕ) (radius : ℚ)
    (transform : Vec2) (state : AgentState) (velocity : Vec2)
    (layer : Option LayerC) (index : TileIndex)
    (targets : ℕ → Option (ℚ × AgentState)) (isSolid : Tile → Bool) :
    Vec2 × Vec2 :=
  if velocity = 0 then (transform, velocity)
  else
    match state.tile with
    | Option.none => (transform, velocity)
    | some tile =>
      match layer with
      | Option.none => (transform, velocity)
      | some layer =>
        let afterAgents := (index.get tile).foldl (fun nearest target =>
          if target = id then nearest
          else
            match targets target with
            | Option.none => nearest
            | some (target_radius, target_state) =>
              match solve_agent_collision sqrt
                  (target_state.position - state.position)
                  (target_state.velocity - state.velocity)
                  (radius + target_radius) with
              | Option.none => nearest
              | some t => considerCandidate dt nearest (.agent target_state) t)
          Option.none
        let afterWalls := (tile.boundaries isSolid).foldl (fun nearest wb =>
          match solve_wall_collision state.position state.velocity radius wb.1 wb.2
              layer.tile_size with
          | Option.none => nearest
          | some t => considerCandidate dt nearest (.wall wb.2) t) afterAgents
        match afterWalls with
        | some (nearest, t) =>
          let ct := CollisionC.contact sqrt nearest state (max t 0)
          let new_velocity :=
            if state.velocity.dot ct.2 < 0 then velocity - state.velocity.dot ct.2 • ct.2
            else velocity
          (ct.1, new_velocity)
        | Option.none => (state.position + dt • state.velocity, velocity)

section BucketLemmas

lemma position_eq_none (e : ℕ) (l : List ℕ) (h : position (fun a => a == e) l = none) :
    e ∉ l := by
  induction l with
  | nil => simp
  | cons x xs ih =>
    simp only [position] at h
    by_cases hx : x = e
    · simp [hx] at h
    · simp only [hx, beq_iff_eq, if_false, Option.map_eq_none'] at h
      simp [ih h, Ne.symm hx, hx]

lemma swapRemove_cons_succ (x : ℕ) (xs : List ℕ) (p : ℕ) (h : xs ≠ []) :
    swapRemove (x :: xs) (p + 1) = x :: swapRemove xs p := by
  obtain ⟨y, ys, rfl⟩ : ∃ y ys, xs = y :: ys := by
    cases xs with
    | nil => exact absurd rfl h
    | cons y ys => exact ⟨y, ys, rfl⟩
  simp only [swapRemove, List.getLast?_cons_cons]
  cases hl : (y :: ys).getLast? with
  | none => simp at hl
  | some last =>
    simp only [List.set_cons_succ]
    have hset : (y :: ys).set p last ≠ [] := by
      cases p <;> simp
    cases hs : (y :: ys).set p last with
    | nil => exact absurd hs hset
    | cons z zs => exact List.dropLast_cons₂

lemma count_swapRemove_self (e b : ℕ) (xs : List ℕ) :
    (swapRemove (e :: xs) 0).count b = (e :: xs).count b - (if b = e then 1 else 0) := by
  cases xs with
  | nil => by_cases hbe : b = e <;> simp [swapRemove, hbe]
  | cons y ys =>
    have hl : (e :: y :: ys).getLast? = (y :: ys).getLast? := List.getLast?_cons_cons
    cases hy : (y :: ys).getLast? with
    | none => simp at hy
    | some last =>
      have hsplit : (y :: ys).dropLast ++ [last] = y :: ys :=
        List.dropLast_append_getLast? last hy
      simp only [swapRemove, hl, hy, List.set_cons_zero, List.dropLast_cons₂]
      have hcount : (y :: ys).count b = ((y :: ys).dropLast).count b
          + (if last = b then 1 else 0) := by
        conv_lhs => rw [← hsplit]
        simp [List.count_append, List.count_cons, List.count_nil, beq_iff_eq]
      simp only [List.count_cons, hcount, beq_iff_eq]
      split_ifs <;> omega

lemma count_bucketRemove (e b : ℕ) (l : List ℕ) :
    (bucketRemove e l).count b = l.count b - (if b = e then 1 else 0) := by
  induction l with
  | nil => simp [bucketRemove, position]
  | cons x xs ih =>
    by_cases hx : x = e
    · subst hx
      have hstep : bucketRemove x (x :: xs) = swapRemove (x :: xs) 0 := by
        simp [bucketRemove, position]
      rw [hstep, count_swapRemove_self]
    · have hpos : position (fun a => a == e) (x :: xs)
          = (position (fun a => a == e) xs).map (· + 1) := by
        simp [position, hx]
      cases hp : position (fun a => a == e) xs with
      | none =>
        have hres : bucketRemove e (x :: xs) = x :: xs := by
          simp [bucketRemove, hpos, hp]
        have hmem : e ∉ xs := position_eq_none e xs hp
        have hcnt : (x :: xs).count e = 0 := by
          simp [List.count_eq_zero, hmem, Ne.symm hx, hx]
        rw [hres]
        split_ifs with hbe
        · subst hbe; omega
        · omega
      | some p =>
        have hne : xs ≠ [] := by
          cases xs with
          | nil => simp [position] at hp
          | cons _ _ => simp
        have hres : bucketRemove e (x :: xs) = x :: swapRemove xs p := by
          simp only [bucketRemove, hpos, hp, Option.map_some]
          exact swapRemove_cons_succ x xs p hne
        have hxs : bucketRemove e xs = swapRemove xs p := by
          simp [bucketRemove, hp]
        rw [hres]
        rw [hxs] at ih
        simp only [List.count_cons, ih, beq_iff_eq]
        split_ifs <;> omega

end BucketLemmas

section IndexLemmas

lemma get_insert (idx : TileIndex) (id : ℕ) (tile t : Tile) :
    (idx.insert id tile).get t = if t = tile then idx.get tile ++ [id] else idx.get t := by
  unfold TileIndex.insert TileIndex.get
  by_cases h : t = tile
  · simp only [h, if_pos rfl]
    cases idx tile <;> rfl
  · simp [h]

lemma get_remove (idx : TileIndex) (id : ℕ) (tile t : Tile) :
    (idx.remove id tile).get t
      = if t = tile then bucketRemove id (idx.get tile) else idx.get t := by
  unfold TileIndex.remove TileIndex.get
  by_cases h : t = tile
  · simp only [h, if_pos rfl]
    cases idx tile with
    | none => rfl
    | some agents =>
      by_cases he : bucketRemove id agents = [] <;> simp [he]
  · simp [h]

lemma cnt_insert (idx : TileIndex) (id : ℕ) (tile : Tile) (a : ℕ) (t : Tile) :
    cnt (idx.insert id tile) a t
      = cnt idx a t + (if t = tile ∧ a = id then 1 else 0) := by
  unfold cnt
  rw [get_insert]
  by_cases h : t = tile
  · subst h
    simp only [if_pos rfl, List.count_append, true_and]
    by_cases ha : a = id <;> simp [ha, List.count_cons, List.count_nil, beq_iff_eq]
  · simp [h]

lemma cnt_remove (idx : TileIndex) (id : ℕ) (tile : Tile) (a : ℕ) (t : Tile) :
    cnt (idx.remove id tile) a t
      = cnt idx a t - (if t = tile ∧ a = id then 1 else 0) := by
  unfold cnt
  rw [get_remove]
  by_cases h : t = tile
  · subst h
    rw [if_pos rfl, count_bucketRemove]
    by_cases ha : a = id <;> simp [ha]
  · simp [h]

lemma cnt_foldl_insert (ts : List Tile) (idx : TileIndex) (id a : ℕ) (t : Tile) :
    cnt (ts.foldl (fun i tl => i.insert id tl) idx) a t
      = cnt idx a t + (if a = id then ts.count t else 0) := by
  induction ts generalizing idx with
  | nil => simp
  | cons tl ts ih =>
    rw [List.foldl_cons, ih, cnt_insert]
    have hc : List.count t (tl :: ts) = ts.count t + (if tl = t then 1 else 0) := by
      simp [List.count_cons]
    rw [hc]
    by_cases ha : a = id
    · by_cases htl : tl = t
      · rw [if_pos ⟨htl.symm, ha⟩, if_pos ha, if_pos ha, if_pos htl]
        omega
      · rw [if_neg (fun hcon => htl hcon.1.symm), if_pos ha, if_pos ha, if_neg htl]
        omega
    · rw [if_neg (fun hcon => ha hcon.2), if_neg ha, if_neg ha]
      try omega

lemma cnt_foldl_remove (ts : List Tile) (idx : TileIndex) (id a : ℕ) (t : Tile) :
    cnt (ts.foldl (fun i tl => i.remove id tl) idx) a t
      = cnt idx a t - (if a = id then ts.count t else 0) := by
  induction ts generalizing idx with
  | nil => simp
  | cons tl ts ih =>
    rw [List.foldl_cons, ih, cnt_remove]
    have hc : List.count t (tl :: ts) = ts.count t + (if tl = t then 1 else 0) := by
      simp [List.count_cons]
    rw [hc]
    by_cases ha : a = id
    · by_cases htl : tl = t
      · rw [if_pos ⟨htl.symm, ha⟩, if_pos ha, if_pos ha, if_pos htl]
        omega
      · rw [if_neg (fun hcon => htl hcon.1.symm), if_pos ha, if_pos ha, if_neg htl]
        omega
    · rw [if_neg (fun hcon => ha hcon.2), if_neg ha, if_neg ha]
      try omega

set_option maxHeartbeats 2000000 in
lemma count_neighborhood (c t : Tile) : c.neighborhood.count t = inBall c t := by
  obtain ⟨cl, cx, cy⟩ := c
  obtain ⟨tl, tx, ty⟩ := t
  by_cases hl : tl = cl
  · subst hl
    simp only [Tile.neighborhood, inBall, List.count_cons, List.count_nil, beq_iff_eq,
      Tile.mk.injEq, true_and]
    split_ifs <;> omega
  · simp only [Tile.neighborhood, inBall, List.count_cons, List.count_nil, beq_iff_eq,
      Tile.mk.injEq]
    simp [hl] <;> omega

lemma cnt_insert_neighborhood (idx : TileIndex) (id : ℕ) (c : Tile) (a : ℕ) (t : Tile) :
    cnt (idx.insert_neighborhood id c) a t
      = cnt idx a t + (if a = id then inBall c t else 0) := by
  unfold TileIndex.insert_neighborhood
  rw [cnt_foldl_insert, count_neighborhood]

lemma cnt_remove_neighborhood (idx : TileIndex) (id : ℕ) (c : Tile) (a : ℕ) (t : Tile) :
    cnt (idx.remove_neighborhood id c) a t
      = cnt idx a t - (if a = id then inBall c t else 0) := by
  unfold TileIndex.remove_neighborhood
  rw [cnt_foldl_remove, count_neighborhood]

end IndexLemmas

section UpdateLemmas

lemma update_none_none (idx : TileIndex) (a : ℕ) :
    idx.update ⟨a, none, none⟩ = idx := rfl

lemma update_some_none (idx : TileIndex) (a : ℕ) (o : Tile) :
    idx.update ⟨a, some o, none⟩ = idx.remove_neighborhood a o := rfl

lemma update_none_some (idx : TileIndex) (a : ℕ) (n : Tile) :
    idx.update ⟨a, none, some n⟩ = idx.insert_neighborhood a n := rfl

lemma update_some_some (idx : TileIndex) (a : ℕ) (o n : Tile) :
    idx.update ⟨a, some o, some n⟩ =
      if o.layer ≠ n.layer then
        TileIndex.insert_neighborhood (TileIndex.remove_neighborhood idx a o) a n
      else if n.x - o.x = 0 ∧ n.y - o.y = 0 then idx
      else if ((n.x - o.x = 1 ∨ n.x - o.x = -1) ∧ n.y - o.y = 0)
          ∨ (n.x - o.x = 0 ∧ (n.y - o.y = 1 ∨ n.y - o.y = -1)) then
        [(⟨o.layer, n.x + (n.x - o.x) + (n.y - o.y), n.y + (n.y - o.y) + (n.x - o.x)⟩ : Tile),
         ⟨o.layer, n.x + (n.x - o.x), n.y + (n.y - o.y)⟩,
         ⟨o.layer, n.x + (n.x - o.x) - (n.y - o.y), n.y + (n.y - o.y) - (n.x - o.x)⟩].foldl
          (fun i tl => i.insert a tl)
          ([(⟨o.layer, o.x - (n.x - o.x) + (n.y - o.y), o.y - (n.y - o.y) + (n.x - o.x)⟩ : Tile),
            ⟨o.layer, o.x - (n.x - o.x), o.y - (n.y - o.y)⟩,
            ⟨o.layer, o.x - (n.x - o.x) - (n.y - o.y), o.y - (n.y - o.y) - (n.x - o.x)⟩].foldl
            (fun i tl => i.remove a tl) idx)
      else if (n.x - o.x = 1 ∨ n.x - o.x = -1) ∧ (n.y - o.y = 1 ∨ n.y - o.y = -1) then
        [(⟨o.layer, n.x - (n.x - o.x), n.y + (n.y - o.y)⟩ : Tile),
         ⟨o.layer, n.x, n.y + (n.y - o.y)⟩,
         ⟨o.layer, n.x + (n.x - o.x), n.y + (n.y - o.y)⟩,
         ⟨o.layer, n.x + (n.x - o.x), n.y⟩,
         ⟨o.layer, n.x + (n.x - o.x), n.y - (n.y - o.y)⟩].foldl
          (fun i tl => i.insert a tl)
          ([(⟨o.layer, o.x + (n.x - o.x), o.y - (n.y - o.y)⟩ : Tile),
            ⟨o.layer, o.x, o.y - (n.y - o.y)⟩,
            ⟨o.layer, o.x - (n.x - o.x), o.y - (n.y - o.y)⟩,
            ⟨o.layer, o.x - (n.x - o.x), o.y⟩,
            ⟨o.layer, o.x - (n.x - o.x), o.y + (n.y - o.y)⟩].foldl
            (fun i tl => i.remove a tl) idx)
      else
        TileIndex.insert_neighborhood (TileIndex.remove_neighborhood idx a o) a n := rfl

lemma inBall_le_one (c t : Tile) : inBall c t ≤ 1 := by
  unfold inBall
  split_ifs <;> omega

end UpdateLemmas

section EdgeCountLemmas

set_option maxHeartbeats 2000000 in
lemma count_card_remove (o n t : Tile) (hl : o.layer = n.layer)
    (hc : ((n.x - o.x = 1 ∨ n.x - o.x = -1) ∧ n.y - o.y = 0)
        ∨ (n.x - o.x = 0 ∧ (n.y - o.y = 1 ∨ n.y - o.y = -1))) :
    ([(⟨o.layer, o.x - (n.x - o.x) + (n.y - o.y), o.y - (n.y - o.y) + (n.x - o.x)⟩ : Tile),
      ⟨o.layer, o.x - (n.x - o.x), o.y - (n.y - o.y)⟩,
      ⟨o.layer, o.x - (n.x - o.x) - (n.y - o.y), o.y - (n.y - o.y) - (n.x - o.x)⟩]).count t
      = inBall o t - inBall n t := by
  obtain ⟨ol, ox, oy⟩ := o
  obtain ⟨nl, nx, ny⟩ := n
  obtain ⟨tl, tx, ty⟩ := t
  simp only at hl hc
  subst hl
  simp only [List.count_cons, List.count_nil, beq_iff_eq, Tile.mk.injEq, inBall]
  rcases hc with ⟨hx | hx, hy⟩ | ⟨hx, hy | hy⟩ <;> split_ifs <;> omega

set_option maxHeartbeats 2000000 in
lemma count_card_insert (o n t : Tile) (hl : o.layer = n.layer)
    (hc : ((n.x - o.x = 1 ∨ n.x - o.x = -1) ∧ n.y - o.y = 0)
        ∨ (n.x - o.x = 0 ∧ (n.y - o.y = 1 ∨ n.y - o.y = -1))) :
    ([(⟨o.layer, n.x + (n.x - o.x) + (n.y - o.y), n.y + (n.y - o.y) + (n.x - o.x)⟩ : Tile),
      ⟨o.layer, n.x + (n.x - o.x), n.y + (n.y - o.y)⟩,
      ⟨o.layer, n.x + (n.x - o.x) - (n.y - o.y), n.y + (n.y - o.y) - (n.x - o.x)⟩]).count t
      = inBall n t - inBall o t := by
  obtain ⟨ol, ox, oy⟩ := o
  obtain ⟨nl, nx, ny⟩ := n
  obtain ⟨tl, tx, ty⟩ := t
  simp only at hl hc
  subst hl
  simp only [List.count_cons, List.count_nil, beq_iff_eq, Tile.mk.injEq, inBall]
  rcases hc with ⟨hx | hx, hy⟩ | ⟨hx, hy | hy⟩ <;> split_ifs <;> omega

set_option maxHeartbeats 4000000 in
lemma count_diag_remove (o n t : Tile) (hl : o.layer = n.layer)
    (hc : (n.x - o.x = 1 ∨ n.x - o.x = -1) ∧ (n.y - o.y = 1 ∨ n.y - o.y = -1)) :
    ([(⟨o.layer, o.x + (n.x - o.x), o.y - (n.y - o.y)⟩ : Tile),
      ⟨o.layer, o.x, o.y - (n.y - o.y)⟩,
      ⟨o.layer, o.x - (n.x - o.x), o.y - (n.y - o.y)⟩,
      ⟨o.layer, o.x - (n.x - o.x), o.y⟩,
      ⟨o.layer, o.x - (n.x - o.x), o.y + (n.y - o.y)⟩]).count t
      = inBall o t - inBall n t := by
  obtain ⟨ol, ox, oy⟩ := o
  obtain ⟨nl, nx, ny⟩ := n
  obtain ⟨tl, tx, ty⟩ := t
  simp only at hl hc
  subst hl
  simp only [List.count_cons, List.count_nil, beq_iff_eq, Tile.mk.injEq, inBall]
  rcases hc with ⟨hx | hx, hy | hy⟩ <;> split_ifs <;> omega

set_option maxHeartbeats 4000000 in
lemma count_diag_insert (o n t : Tile) (hl : o.layer = n.layer)
    (hc : (n.x - o.x = 1 ∨ n.x - o.x = -1) ∧ (n.y - o.y = 1 ∨ n.y - o.y = -1)) :
    ([(⟨o.layer, n.x - (n.x - o.x), n.y + (n.y - o.y)⟩ : Tile),
      ⟨o.layer, n.x, n.y + (n.y - o.y)⟩,
      ⟨o.layer, n.x + (n.x - o.x), n.y + (n.y - o.y)⟩,
      ⟨o.layer, n.x + (n.x - o.x), n.y⟩,
      ⟨o.layer, n.x + (n.x - o.x), n.y - (n.y - o.y)⟩]).count t
      = inBall n t - inBall o t := by
  obtain ⟨ol, ox, oy⟩ := o
  obtain ⟨nl, nx, ny⟩ := n
  obtain ⟨tl, tx, ty⟩ := t
  simp only at hl hc
  subst hl
  simp only [List.count_cons, List.count_nil, beq_iff_eq, Tile.mk.injEq, inBall]
  rcases hc with ⟨hx | hx, hy | hy⟩ <;> split_ifs <;> omega

end EdgeCountLemmas

section MasterCountLemmas

lemma ballCount_some (c : Tile) (t : Tile) : ballCount (some c) t = inBall c t := rfl

lemma ballCount_none (t : Tile) : ballCount none t = 0 := rfl

lemma tile_eq_of_zero_step (o n : Tile) (hl : o.layer = n.layer)
    (hx : n.x - o.x = 0) (hy : n.y - o.y = 0) : o = n := by
  obtain ⟨ol, ox, oy⟩ := o
  obtain ⟨nl, nx, ny⟩ := n
  simp only at hl hx hy
  simp only [Tile.mk.injEq]
  omega

/-- Effect of a full `TileIndex::update` on the moving agent's own bucket
counts: starting from counts matching the old cached tile, after the update
the counts match the new cached tile, whichever arm of the event table runs. -/
lemma cnt_update_agent (idx : TileIndex) (a : ℕ) (old new : Option Tile)
    (hpre : ∀ t, cnt idx a t = ballCount old t) (t : Tile) :
    cnt (idx.update ⟨a, old, new⟩) a t = ballCount new t := by
  cases old with
  | none =>
    cases new with
    | none => rw [update_none_none]; exact hpre t
    | some n =>
      rw [update_none_some, cnt_insert_neighborhood, hpre t, ballCount_none,
        ballCount_some]
      simp
  | some o =>
    cases new with
    | none =>
      rw [update_some_none, cnt_remove_neighborhood, hpre t, ballCount_some,
        ballCount_none]
      simp
    | some n =>
      rw [update_some_some]
      by_cases hlay : o.layer = n.layer
      · rw [if_neg (by simpa using hlay)]
        by_cases h0 : n.x - o.x = 0 ∧ n.y - o.y = 0
        · rw [if_pos h0, hpre t, ballCount_some, ballCount_some,
            tile_eq_of_zero_step o n hlay h0.1 h0.2]
        · rw [if_neg h0]
          by_cases hcard : ((n.x - o.x = 1 ∨ n.x - o.x = -1) ∧ n.y - o.y = 0)
              ∨ (n.x - o.x = 0 ∧ (n.y - o.y = 1 ∨ n.y - o.y = -1))
          · rw [if_pos hcard, cnt_foldl_insert, cnt_foldl_remove,
              count_card_remove o n t hlay hcard, count_card_insert o n t hlay hcard,
              hpre t, ballCount_some, ballCount_some, if_pos rfl, if_pos rfl]
            have h1 := inBall_le_one o t
            have h2 := inBall_le_one n t
            omega
          · rw [if_neg hcard]
            by_cases hdiag : (n.x - o.x = 1 ∨ n.x - o.x = -1)
                ∧ (n.y - o.y = 1 ∨ n.y - o.y = -1)
            · rw [if_pos hdiag, cnt_foldl_insert, cnt_foldl_remove,
                count_diag_remove o n t hlay hdiag, count_diag_insert o n t hlay hdiag,
                hpre t, ballCount_some, ballCount_some, if_pos rfl, if_pos rfl]
              have h1 := inBall_le_one o t
              have h2 := inBall_le_one n t
              omega
            · rw [if_neg hdiag, cnt_insert_neighborhood, cnt_remove_neighborhood,
                hpre t, ballCount_some, ballCount_some]
              have h1 := inBall_le_one o t
              have h2 := inBall_le_one n t
              simp only [eq_self_iff_true, if_true]
              omega
      · rw [if_pos (by simpa using hlay), cnt_insert_neighborhood,
          cnt_remove_neighborhood, hpre t, ballCount_some, ballCount_some]
        have h1 := inBall_le_one o t
        have h2 := inBall_le_one n t
        simp only [eq_self_iff_true, if_true]
        omega

/-- A `TileIndex::update` never changes the bucket counts of any agent other
than the event's agent. -/
lemma cnt_update_other (idx : TileIndex) (ev : TileChanged) (b : ℕ)
    (hb : b ≠ ev.agent) (t : Tile) :
    cnt (idx.update ev) b t = cnt idx b t := by
  obtain ⟨a, old, new⟩ := ev
  simp only at hb
  cases old with
  | none =>
    cases new with
    | none => rw [update_none_none]
    | some n => rw [update_none_some, cnt_insert_neighborhood, if_neg hb]; omega
  | some o =>
    cases new with
    | none => rw [update_some_none, cnt_remove_neighborhood, if_neg hb]; omega
    | some n =>
      rw [update_some_some]
      split_ifs
      · rw [cnt_insert_neighborhood, cnt_remove_neighborhood, if_neg hb, if_neg hb]
        omega
      · rfl
      · rw [cnt_foldl_insert, cnt_foldl_remove, if_neg hb, if_neg hb]
        omega
      · rw [cnt_foldl_insert, cnt_foldl_remove, if_neg hb, if_neg hb]
        omega
      · rw [cnt_insert_neighborhood, cnt_remove_neighborhood, if_neg hb, if_neg hb]
        omega

end MasterCountLemmas

section RoundTripLemmas

lemma insert_apply (idx : TileIndex) (a : ℕ) (tile u : Tile) :
    (idx.insert a tile) u = if u = tile then some (idx.get tile ++ [a]) else idx u := by
  unfold TileIndex.insert TileIndex.get
  by_cases hu : u = tile
  · simp only [hu, if_pos rfl]
    cases idx tile <;> rfl
  · simp [hu]

lemma remove_apply (idx : TileIndex) (a : ℕ) (tile u : Tile) :
    (idx.remove a tile) u
      = if u = tile then
          (match idx tile with
            | none => none
            | some agents =>
              if bucketRemove a agents = [] then none else some (bucketRemove a agents))
        else idx u := rfl

lemma bucketRemove_append_self (e : ℕ) (l : List ℕ) : bucketRemove e (l ++ [e]) = l := by
  induction l with
  | nil =>
    simp [bucketRemove, position, swapRemove]
  | cons x xs ih =>
    by_cases hx : x = e
    · subst hx
      have hpos : position (fun a => a == x) (x :: (xs ++ [x])) = some 0 := by
        simp [position]
      have hlast : (x :: (xs ++ [x])).getLast? = some x := by
        rw [show x :: (xs ++ [x]) = (x :: xs) ++ [x] by simp, List.getLast?_concat]
      simp only [bucketRemove, List.cons_append, hpos, swapRemove, hlast,
        List.set_cons_zero]
      rw [show x :: (xs ++ [x]) = (x :: xs) ++ [x] by simp, List.dropLast_concat]
    · cases hp : position (fun a => a == e) (xs ++ [e]) with
      | none =>
        exact absurd (by simp : e ∈ xs ++ [e]) (position_eq_none e (xs ++ [e]) hp)
      | some p =>
        have hpos : position (fun a => a == e) (x :: (xs ++ [e])) = some (p + 1) := by
          simp [position, hx, hp]
        have hne : xs ++ [e] ≠ [] := by simp
        have hswap := swapRemove_cons_succ x (xs ++ [e]) p hne
        have hxs : bucketRemove e (xs ++ [e]) = swapRemove (xs ++ [e]) p := by
          simp [bucketRemove, hp]
        simp only [bucketRemove, List.cons_append, hpos, hswap]
        rw [← hxs, ih]

lemma remove_insert_self (idx : TileIndex) (a : ℕ) (tile : Tile)
    (h : idx tile ≠ some []) :
    (idx.insert a tile).remove a tile = idx := by
  funext u
  rw [remove_apply]
  by_cases hu : u = tile
  · subst hu
    rw [if_pos rfl, insert_apply, if_pos rfl]
    simp only [bucketRemove_append_self]
    cases hidx : idx u with
    | none =>
      have : TileIndex.get idx u = [] := by unfold TileIndex.get; rw [hidx]
      simp [this]
    | some m =>
      have hm : m ≠ [] := fun hcon => h (hcon ▸ hidx)
      have : TileIndex.get idx u = m := by unfold TileIndex.get; rw [hidx]
      simp [this, hm]
  · rw [if_neg hu, insert_apply, if_neg hu]

lemma foldl_insert_apply_notmem (ts : List Tile) (idx : TileIndex) (a : ℕ) (u : Tile)
    (hu : u ∉ ts) :
    (ts.foldl (fun i tl => i.insert a tl) idx) u = idx u := by
  induction ts generalizing idx with
  | nil => rfl
  | cons t0 rest ih =>
    rw [List.foldl_cons, ih _ (fun hmem => hu (List.mem_cons_of_mem t0 hmem)),
      insert_apply, if_neg (fun hc => hu (by rw [hc]; exact List.mem_cons_self t0 rest))]

lemma foldl_insert_apply_congr (ts : List Tile) (Y Z : TileIndex) (a : ℕ) (u : Tile)
    (h : Y u = Z u) :
    (ts.foldl (fun i tl => i.insert a tl) Y) u
      = (ts.foldl (fun i tl => i.insert a tl) Z) u := by
  induction ts generalizing Y Z with
  | nil => exact h
  | cons t0 rest ih =>
    simp only [List.foldl_cons]
    refine ih (Y.insert a t0) (Z.insert a t0) ?_
    rw [insert_apply, insert_apply]
    by_cases hu : u = t0
    · subst hu
      have : TileIndex.get Y u = TileIndex.get Z u := by
        unfold TileIndex.get
        rw [h]
      rw [if_pos rfl, if_pos rfl, this]
    · rw [if_neg hu, if_neg hu, h]

lemma remove_foldl_insert_roundtrip (ts : List Tile) (idx : TileIndex) (a : ℕ)
    (hnodup : ts.Nodup) (hne : ∀ t, idx t ≠ some []) :
    ts.foldl (fun i tl => i.remove a tl) (ts.foldl (fun i tl => i.insert a tl) idx)
      = idx := by
  induction ts generalizing idx with
  | nil => rfl
  | cons t0 rest ih =>
    obtain ⟨h0, hrest⟩ := List.nodup_cons.mp hnodup
    simp only [List.foldl_cons]
    have hcomm : (rest.foldl (fun i tl => i.insert a tl) (idx.insert a t0)).remove a t0
        = rest.foldl (fun i tl => i.insert a tl) ((idx.insert a t0).remove a t0) := by
      funext u
      by_cases hu : u = t0
      · subst hu
        rw [remove_apply, if_pos rfl, foldl_insert_apply_notmem rest _ a u h0,
          foldl_insert_apply_notmem rest _ a u h0, remove_apply, if_pos rfl]
      · rw [remove_apply, if_neg hu]
        exact foldl_insert_apply_congr rest _ _ a u (by rw [remove_apply, if_neg hu])
    rw [hcomm, remove_insert_self idx a t0 (hne t0)]
    exact ih idx hrest hne

lemma neighborhood_nodup (c : Tile) : c.neighborhood.Nodup := by
  obtain ⟨cl, cx, cy⟩ := c
  simp only [Tile.neighborhood, List.nodup_cons, List.mem_cons, List.mem_singleton,
    List.not_mem_nil, or_false, Tile.mk.injEq, not_or, List.nodup_nil, and_true, true_and,
    not_false_eq_true]
  omega

end RoundTripLemmas

section ClaimC1

/-- C1 (counterexample): invariant I1 exactly as stated is not inductive.
A concrete state satisfying I1 (one agent with cached tile `none` that is
nevertheless present in a bucket) together with a consistent
`TileChanged {old: none, new: some (0,0)}` event yields a post-state where
the agent occurs twice in the bucket of its own tile, violating I1. -/
theorem tileIndex_I1_alone_not_preserved :
    SpecI1 (fun t => if t = ⟨0, 0, 0⟩ then some [0] else none) (fun _ => none)
    ∧ (fun _ => (none : Option Tile)) 0 = (none : Option Tile)
    ∧ ¬ SpecI1
        (TileIndex.update (fun t => if t = ⟨0, 0, 0⟩ then some [0] else none)
          ⟨0, none, some ⟨0, 0, 0⟩⟩)
        (Function.update (fun _ => none) 0 (some ⟨0, 0, 0⟩)) := by
  refine ⟨fun b c hbc => by simp at hbc, rfl, fun h => ?_⟩
  have h1 := h 0 ⟨0, 0, 0⟩ (by simp) ⟨0, 0, 0⟩
  exact absurd h1 (by decide)

/-- C1 (amended): the strengthened invariant — I1 together with the clause
that an agent whose cached tile is `none` appears in no bucket — is
preserved by every `TileIndex::update` applied to a `TileChanged` event
that is consistent with the agents' cached tiles (`old` is the agent's
previously recorded tile, `new` becomes its current tile). -/
theorem tileIndex_stateInv_preserved (idx : TileIndex) (cache : ℕ → Option Tile)
    (ev : TileChanged) (hcons : cache ev.agent = ev.old)
    (hinv : StateInv idx cache) :
    StateInv (idx.update ev) (Function.update cache ev.agent ev.new) := by
  obtain ⟨a, old, new⟩ := ev
  simp only at hcons
  intro b t
  by_cases hb : b = a
  · subst hb
    rw [Function.update_same]
    exact cnt_update_agent idx b old new (fun u => by rw [hinv b u, hcons]) t
  · rw [Function.update_noteq hb, cnt_update_other idx ⟨a, old, new⟩ b hb t]
    exact hinv b t

/-- C1 (witness): the preservation theorem applied to the empty index and
an insertion event. -/
theorem tileIndex_stateInv_preserved_witness :
    StateInv (TileIndex.update (fun _ => none) ⟨5, none, some ⟨0, 2, 3⟩⟩)
      (Function.update (fun _ => none) 5 (some ⟨0, 2, 3⟩)) :=
  tileIndex_stateInv_preserved (fun _ => none) (fun _ => none)
    ⟨5, none, some ⟨0, 2, 3⟩⟩ rfl (fun b t => rfl)

end ClaimC1

section ClaimC9

/-- C9 (counterexample): on a `TileIndex` state that violates invariant I2
(it stores an explicitly empty bucket), inserting and then removing an agent
through `TileChanged` does not restore the state: the empty bucket's entry is
deleted by the removal pass. -/
theorem tileIndex_roundtrip_cx :
    TileIndex.update
        (TileIndex.update (fun t => if t = ⟨0, 0, 0⟩ then some [] else none)
          ⟨0, none, some ⟨0, 0, 0⟩⟩)
        ⟨0, some ⟨0, 0, 0⟩, none⟩
      ≠ (fun t => if t = ⟨0, 0, 0⟩ then some [] else none) := by
  intro h
  have h0 := congrFun h ⟨0, 0, 0⟩
  exact absurd h0 (by decide)

/-- C9 (amended): for every initial `TileIndex` state with no stored empty
bucket (invariant I2, which holds in every reachable state), applying
`TileChanged {old: none, new: some C}` followed by
`TileChanged {old: some C, new: none}` returns the index to exactly its
initial state. -/
theorem tileIndex_roundtrip (idx : TileIndex) (a : ℕ) (C : Tile)
    (hne : ∀ t, idx t ≠ some []) :
    (idx.update ⟨a, none, some C⟩).update ⟨a, some C, none⟩ = idx := by
  rw [update_none_some, update_some_none]
  unfold TileIndex.remove_neighborhood TileIndex.insert_neighborhood
  exact remove_foldl_insert_roundtrip C.neighborhood idx a (neighborhood_nodup C) hne

/-- C9 (witness): round trip on the empty index. -/
theorem tileIndex_roundtrip_witness :
    (TileIndex.update (TileIndex.update (fun _ => none) ⟨3, none, some ⟨1, -2, 5⟩⟩)
      ⟨3, some ⟨1, -2, 5⟩, none⟩) = (fun _ => none) :=
  tileIndex_roundtrip (fun _ => none) 3 ⟨1, -2, 5⟩ (fun t => by simp)

end ClaimC9

section ClaimC2

lemma cnt_ball_state (o : Tile) (l : List ℕ) (b : ℕ) (t : Tile) :
    cnt (fun u => if inBall o u = 1 then some l else none) b t
      = (if inBall o t = 1 then l.count b else 0) := by
  unfold cnt TileIndex.get
  by_cases hball : inBall o t = 1 <;> simp [hball]

/-- C2 (counterexample): a cardinal one-step move applied through the
incremental path does not give exactly the same index state as a full
remove + insert: on a bucket shared by the old and new neighbourhoods that
holds another agent after the mover, the full path reorders the bucket
(swap-remove then append) while the incremental path leaves it untouched. -/
theorem tileIndex_incremental_vs_full_cx :
    SpecI1 (fun u => if inBall ⟨0, 0, 0⟩ u = 1 then some [0, 1] else none)
        (fun e => if e ≤ 1 then some ⟨0, 0, 0⟩ else none)
    ∧ (fun e => if e ≤ 1 then some (⟨0, 0, 0⟩ : Tile) else none) 0 = some ⟨0, 0, 0⟩
    ∧ TileIndex.update (fun u => if inBall ⟨0, 0, 0⟩ u = 1 then some [0, 1] else none)
          ⟨0, some ⟨0, 0, 0⟩, some ⟨0, 1, 0⟩⟩
        ≠ TileIndex.insert_neighborhood
            (TileIndex.remove_neighborhood
              (fun u => if inBall ⟨0, 0, 0⟩ u = 1 then some [0, 1] else none) 0 ⟨0, 0, 0⟩)
            0 ⟨0, 1, 0⟩ := by
  refine ⟨?_, rfl, fun h => ?_⟩
  · intro b c hbc t
    by_cases hb : b ≤ 1
    · simp only [hb, if_true] at hbc
      obtain rfl : c = ⟨0, 0, 0⟩ := by
        simp [hb] at hbc
        exact hbc.symm
      rw [cnt_ball_state]
      have hcount : List.count b [0, 1] = 1 := by
        interval_cases b <;> decide
      rw [hcount]
      have h1 := inBall_le_one (⟨0, 0, 0⟩ : Tile) t
      split_ifs with hball <;> omega
    · simp [hb] at hbc
  · have h0 := congrFun h ⟨0, 0, 0⟩
    exact absurd h0 (by decide)

/-- C2 (amended): for a same-layer `TileChanged` event at Chebyshev distance
exactly 1, on every index state satisfying I1 the incremental edge-update
path yields the same index state as a full remove of the old 9-tile
neighbourhood followed by a full insert of the new one, up to the order of
agents inside each bucket: every bucket of the two resulting states is a
permutation of the other. -/
theorem tileIndex_incremental_matches_full (idx : TileIndex)
    (cache : ℕ → Option Tile) (a : ℕ) (o n : Tile)
    (hcache : cache a = some o) (hinv : SpecI1 idx cache)
    (hl : o.layer = n.layer)
    (hd : max (n.x - o.x).natAbs (n.y - o.y).natAbs = 1) (t : Tile) :
    ((idx.update ⟨a, some o, some n⟩).get t).Perm
      (((idx.remove_neighborhood a o).insert_neighborhood a n).get t) := by
  have hpre : ∀ u, cnt idx a u = ballCount (some o) u := fun u => by
    rw [hinv a o hcache u, ballCount_some]
  rw [List.perm_iff_count]
  intro b
  show cnt (idx.update ⟨a, some o, some n⟩) b t
      = cnt ((idx.remove_neighborhood a o).insert_neighborhood a n) b t
  by_cases hb : b = a
  · subst hb
    rw [cnt_update_agent idx b (some o) (some n) hpre t, cnt_insert_neighborhood,
      cnt_remove_neighborhood, hpre t, ballCount_some, ballCount_some]
    simp only [eq_self_iff_true, if_true]
    have h1 := inBall_le_one o t
    have h2 := inBall_le_one n t
    omega
  · rw [cnt_update_other idx ⟨a, some o, some n⟩ b hb t, cnt_insert_neighborhood,
      cnt_remove_neighborhood, if_neg hb, if_neg hb]
    omega

/-- C2 (witness): the equivalence theorem applied to a one-agent state and a
diagonal step, observed at a shared bucket. -/
theorem tileIndex_incremental_matches_full_witness :
    ((TileIndex.update (fun u => if inBall ⟨0, 0, 0⟩ u = 1 then some [7] else none)
        ⟨7, some ⟨0, 0, 0⟩, some ⟨0, 1, 1⟩⟩).get ⟨0, 1, 0⟩).Perm
      ((TileIndex.insert_neighborhood
          (TileIndex.remove_neighborhood
            (fun u => if inBall ⟨0, 0, 0⟩ u = 1 then some [7] else none) 7 ⟨0, 0, 0⟩)
          7 ⟨0, 1, 1⟩).get ⟨0, 1, 0⟩) := by
  refine tileIndex_incremental_matches_full _
      (fun e => if e = 7 then some ⟨0, 0, 0⟩ else none) 7 ⟨0, 0, 0⟩ ⟨0, 1, 1⟩
      (by simp) ?_ rfl (by decide) ⟨0, 1, 0⟩
  intro b c hbc t
  by_cases hb : b = 7
  · subst hb
    obtain rfl : c = ⟨0, 0, 0⟩ := by
      simp at hbc
      exact hbc.symm
    rw [cnt_ball_state, show List.count 7 [7] = 1 from by decide]
    have h1 := inBall_le_one (⟨0, 0, 0⟩ : Tile) t
    split_ifs with hball <;> omega
  · simp [hb] at hbc

end ClaimC2

section ClaimC10

/-- C10 (confirmed): `TileIndex::get` is total and read-only: it returns the
bucket's agent list when the tile has a bucket and the empty slice when it
has none, for every index state and every tile; as a pure function it can
neither fail nor mutate the index, so broad-phase queries on un-indexed
tiles are safe no-ops. -/
theorem tileIndex_get_total (idx : TileIndex) (t : Tile) :
    idx.get t = (idx t).getD [] := by
  unfold TileIndex.get
  cases idx t <;> rfl

end ClaimC10

section ClaimC3

/-- C3 (confirmed): the swept disc–disc solver returns no collision when
`a = ‖Δv‖²` is zero or when the discriminant is negative; otherwise it
computes the earlier root `t = (−b − √disc)/(2a)` and returns `some t`
exactly when `t > 0`, or `t ≤ 0` and `b < 0`, and no collision in every
other case.  Holds for every square-root routine. -/
theorem solve_agent_collision_spec (sqrt : ℚ → ℚ) (dp dv : Vec2) (r : ℚ) :
    (collA dv = 0 → solve_agent_collision sqrt dp dv r = none)
    ∧ (collA dv ≠ 0 → collDiscr dp dv r < 0 →
        solve_agent_collision sqrt dp dv r = none)
    ∧ (collA dv ≠ 0 → 0 ≤ collDiscr dp dv r →
        solve_agent_collision sqrt dp dv r
          = if 0 < collT sqrt dp dv r ∨ (collT sqrt dp dv r ≤ 0 ∧ collB dp dv < 0)
            then some (collT sqrt dp dv r) else none) := by
  simp only [solve_agent_collision, collA, collB, collC, collDiscr, collT]
  refine ⟨fun ha => ?_, fun ha hd => ?_, fun ha hd => ?_⟩
  · rw [if_pos ha]
  · rw [if_neg ha, if_pos hd]
  · rw [if_neg ha, if_neg (not_lt.mpr hd)]
    by_cases ht : 0 < (-(2 * dp.dot dv)
        - sqrt (2 * dp.dot dv * (2 * dp.dot dv)
            - 4 * dv.lengthSquared * (dp.lengthSquared - r * r)))
          / (2 * dv.lengthSquared)
    · rw [if_pos ht, if_pos (Or.inl ht)]
    · rw [if_neg ht]
      by_cases hb : 2 * dp.dot dv < 0
      · rw [if_pos hb, if_pos (Or.inr ⟨not_lt.mp ht, hb⟩)]
      · rw [if_neg hb, if_neg (fun h => h.elim ht fun hh => hb hh.2)]

/-- C3 (witness): head-on approach from distance 5 at closing speed 2 with
combined radius 1 collides at `t = 2` (the `collision_simple` scenario of
the source's test suite; the square-root parameter returns the exact root 4
of the discriminant 16). -/
theorem solve_agent_collision_spec_witness :
    solve_agent_collision (fun _ => 4) ⟨5, 0⟩ ⟨-2, 0⟩ 1 = some 2 := by
  have h := (solve_agent_collision_spec (fun _ => 4) ⟨5, 0⟩ ⟨-2, 0⟩ 1).2.2
    (by norm_num [collA, Vec2.lengthSquared, Vec2.dot])
    (by norm_num [collDiscr, collA, collB, collC, Vec2.lengthSquared, Vec2.dot])
  rw [h]
  norm_num [collT, collA, collB, collC, collDiscr, Vec2.lengthSquared, Vec2.dot]

end ClaimC3

section ClaimC6

/-- C6 (counterexample): an agent moving exactly parallel to a wall has
projected velocity `0`, which is non-positive, yet `solve_wall_collision`
does not return `None`: the guard only rejects strictly negative projected
velocities, so the division is reached with a zero divisor. -/
theorem solve_wall_collision_zero_divisor :
    solve_wall_collision ⟨0, 0⟩ ⟨1, 0⟩ (1 / 4) 1 CompassQuadrant.North 1 ≠ none := by
  norm_num [solve_wall_collision, wallProj]
  simp

/-- C6 (amended): the swept disc–wall test returns no collision exactly when
the velocity component projected onto the wall's outward normal is strictly
negative; for any non-negative projected velocity — including zero — it
returns `t = (wall_coord − projected_pos − radius) / projected_vel`, so the
divisor is zero when the agent moves exactly parallel to the wall (in `f32`
this division yields an infinity or NaN rather than trapping). -/
theorem solve_wall_collision_spec (p v : Vec2) (r : ℚ) (w : ℤ)
    (nq : CompassQuadrant) (ts : ℚ) :
    ((wallProj p v nq).2 < 0 → solve_wall_collision p v r w nq ts = none)
    ∧ (0 ≤ (wallProj p v nq).2 →
        solve_wall_collision p v r w nq ts
          = some (((w : ℚ) * ts - (wallProj p v nq).1 - r) / (wallProj p v nq).2)) := by
  simp only [solve_wall_collision]
  refine ⟨fun hneg => ?_, fun hpos => ?_⟩
  · rw [if_pos hneg]
  · rw [if_neg (not_lt.mpr hpos)]

/-- C6 (witness): approaching a north wall at `y`-speed 2 from distance 1
with radius 1/4 gives contact time 3/8. -/
theorem solve_wall_collision_spec_witness :
    solve_wall_collision ⟨0, 0⟩ ⟨0, 2⟩ (1 / 4) 1 CompassQuadrant.North 1
      = some (3 / 8) := by
  have h := (solve_wall_collision_spec ⟨0, 0⟩ ⟨0, 2⟩ (1 / 4) 1
    CompassQuadrant.North 1).2 (by norm_num [wallProj])
  rw [h]
  norm_num [wallProj]

end ClaimC6

section ClaimC4

lemma Vec2.sub_x (a b : Vec2) : (a - b).x = a.x - b.x := rfl

lemma Vec2.sub_y (a b : Vec2) : (a - b).y = a.y - b.y := rfl

lemma Vec2.smul_x (c : ℚ) (v : Vec2) : (c • v).x = c * v.x := rfl

lemma Vec2.smul_y (c : ℚ) (v : Vec2) : (c • v).y = c * v.y := rfl

lemma Vec2.lengthSquared_eq (v : Vec2) : v.lengthSquared = v.x * v.x + v.y * v.y := rfl

lemma Vec2.dot_eq (a b : Vec2) : a.dot b = a.x * b.x + a.y * b.y := rfl

lemma Vec2.lengthSquared_nonneg (v : Vec2) : 0 ≤ v.lengthSquared := by
  rw [Vec2.lengthSquared_eq]
  nlinarith [mul_self_nonneg v.x, mul_self_nonneg v.y]

lemma Vec2.lengthSquared_smul (c : ℚ) (v : Vec2) :
    (c • v).lengthSquared = c * c * v.lengthSquared := by
  simp only [Vec2.lengthSquared_eq, Vec2.smul_x, Vec2.smul_y]
  ring

lemma Vec2.zero_x : (0 : Vec2).x = 0 := rfl

lemma Vec2.zero_y : (0 : Vec2).y = 0 := rfl

lemma Vec2.lengthSquared_zero : (0 : Vec2).lengthSquared = 0 := by
  rw [Vec2.lengthSquared_eq, Vec2.zero_x, Vec2.zero_y]
  ring

/-- After `clamp_length_max`, the squared length is at most `m²`, provided
`sqrt` never under-approximates (an exact square root satisfies this with
equality). -/
lemma clampLengthMax_lengthSquared_le (sqrt : ℚ → ℚ) (v : Vec2) (m : ℚ)
    (hm : 0 ≤ m) (hsq : ∀ q, 0 ≤ q → q ≤ sqrt q * sqrt q) :
    (clampLengthMax sqrt v m).lengthSquared ≤ m * m := by
  unfold clampLengthMax
  split_ifs with h
  · rw [Vec2.lengthSquared_smul]
    have hL : 0 ≤ v.lengthSquared := Vec2.lengthSquared_nonneg v
    have hs := hsq v.lengthSquared hL
    have hLpos : 0 < v.lengthSquared := lt_of_le_of_lt (mul_nonneg hm hm) h
    have hs2 : 0 < sqrt v.lengthSquared * sqrt v.lengthSquared :=
      lt_of_lt_of_le hLpos hs
    rw [div_mul_div_comm, div_mul_eq_mul_div, div_le_iff hs2]
    nlinarith [mul_le_mul_of_nonneg_left hs (mul_nonneg hm hm)]
  · exact le_of_not_lt h

/-- A normal produced by `try_normalize` has squared length at most 1 when
`sqrt` never under-approximates. -/
lemma tryNormalize_lengthSquared_le (sqrt : ℚ → ℚ) (d n : Vec2)
    (hsq : ∀ q, 0 ≤ q → q ≤ sqrt q * sqrt q)
    (h : tryNormalize sqrt d = some n) : n.lengthSquared ≤ 1 := by
  unfold tryNormalize at h
  by_cases h0 : d.lengthSquared = 0
  · rw [if_pos h0] at h
    exact absurd h (by simp)
  · rw [if_neg h0] at h
    injection h with h
    subst h
    rw [Vec2.lengthSquared_smul]
    have hd : 0 ≤ d.lengthSquared := Vec2.lengthSquared_nonneg d
    have hdpos : 0 < d.lengthSquared := lt_of_le_of_ne hd (Ne.symm h0)
    have hs := hsq d.lengthSquared hd
    have hs2 : 0 < sqrt d.lengthSquared * sqrt d.lengthSquared :=
      lt_of_lt_of_le hdpos hs
    rw [div_mul_div_comm, one_mul, div_mul_eq_mul_div, div_le_one hs2, one_mul]
    exact hs

/-- Projecting out a velocity component along a normal of squared length at
most 1 never increases the squared speed. -/
lemma project_lengthSquared_le (v n : Vec2) (hn : n.lengthSquared ≤ 1) :
    (v - v.dot n • n).lengthSquared ≤ v.lengthSquared := by
  simp only [Vec2.lengthSquared_eq, Vec2.dot_eq, Vec2.sub_x, Vec2.sub_y,
    Vec2.smul_x, Vec2.smul_y] at *
  nlinarith [mul_self_nonneg (v.x * n.x + v.y * n.y),
    mul_nonneg (mul_self_nonneg (v.x * n.x + v.y * n.y))
      (by linarith : (0 : ℚ) ≤ 2 - (n.x * n.x + n.y * n.y))]

/-- C4 (confirmed): an agent processed by the collision phase has its
velocity clamped to `max_speed = 0.5 / dt` (with this generation's unit tile
grid, `0.5 · tile_size / dt`) before collision solving, and the only later
modification — projecting out the closing component along a unit-or-shorter
contact normal — never increases speed; hence after `narrow_phase` every
agent's squared speed is at most `max_speed²` (invariant I4).  The
hypothesis on `sqrt` says the square-root routine never under-approximates;
an exact square root satisfies it with equality. -/
theorem narrowPhase_speed_bound (sqrt : ℚ → ℚ) (dt : ℚ) (id : ℕ) (radius : ℚ)
    (pos velocity : Vec2) (candidates : List LayerAgent)
    (hdt : 0 < dt) (hsq : ∀ q, 0 ≤ q → q ≤ sqrt q * sqrt q) :
    (narrowPhaseVelocity sqrt dt id radius pos velocity candidates).lengthSquared
      ≤ ((1 / 2) / dt) * ((1 / 2) / dt) := by
  have hm : (0 : ℚ) ≤ (1 / 2) / dt := by positivity
  have hvle := clampLengthMax_lengthSquared_le sqrt velocity ((1 / 2) / dt) hm hsq
  simp only [narrowPhaseVelocity]
  split_ifs with hv0
  · rw [hv0, Vec2.lengthSquared_zero]
    positivity
  · cases hres : narrowPhaseCandidates sqrt dt
        ⟨id, radius, pos, clampLengthMax sqrt velocity ((1 / 2) / dt)⟩ candidates with
    | none => exact hvle
    | some pair =>
      obtain ⟨nearest, t⟩ := pair
      dsimp only
      cases hnorm : tryNormalize sqrt
          (pos + max t 0 • clampLengthMax sqrt velocity ((1 / 2) / dt)
            - (nearest.position + max t 0 • nearest.velocity)) with
      | none => exact hvle
      | some normal =>
        dsimp only
        split_ifs with hdotneg
        · exact le_trans
            (project_lengthSquared_le (clampLengthMax sqrt velocity ((1 / 2) / dt))
              normal (tryNormalize_lengthSquared_le sqrt _ normal hsq hnorm))
            hvle
        · exact hvle

/-- C4 (witness): a lone agent with velocity (3,4) and `dt = 1` ends the
phase with squared speed at most 1/4. -/
theorem narrowPhase_speed_bound_witness :
    (narrowPhaseVelocity (fun q => q + 1) 1 1 (1 / 4) ⟨0, 0⟩ ⟨3, 4⟩
      []).lengthSquared ≤ ((1 / 2) / 1) * ((1 / 2) / 1) :=
  narrowPhase_speed_bound (fun q => q + 1) 1 1 (1 / 4) ⟨0, 0⟩ ⟨3, 4⟩ []
    (by norm_num) (fun q hq => by show q ≤ (q + 1) * (q + 1); nlinarith)

end ClaimC4

section ClaimC5

/-- C5 (counterexample): when the state is already `Fixed` at the start of
`update_fixed`, the code early-returns and keeps the previously recorded
`start` instead of transitioning to `Fixed{start = transform.xy}`: with
recorded start `(0,0)` and transform at `(1,1)`, the state after
`update_fixed` is `Fixed{(0,0)}`, not `Fixed{(1,1)}` (the source's own
`consecutive_fixed_updates` test asserts exactly this retention). -/
theorem update_fixed_fixed_keeps_old_start :
    update_fixed 10 ⟨⟨1, 1⟩, 3⟩ (InterpolationState.fixed ⟨0, 0⟩)
      ≠ (⟨⟨1, 1⟩, 3⟩, InterpolationState.fixed ⟨1, 1⟩) := by
  simp [update_fixed]

/-- C5 (amended): for a state of `None` or an `Interpolated` whose recorded
change tick differs from the transform's last-change tick, `update_fixed`
takes `transform.xy` as-is as the new physical position, transitions to
`Fixed{start = transform.xy}` and leaves the transform unchanged; for a
state already `Fixed`, it leaves both the transform and the state (with its
previously recorded start) entirely unchanged. -/
theorem update_fixed_spec (tick : ℕ) (tr : TransformState) :
    (update_fixed tick tr InterpolationState.none
        = (tr, InterpolationState.fixed tr.translation))
    ∧ (∀ s e ct, tr.last_changed ≠ ct →
        update_fixed tick tr (InterpolationState.interpolated s e ct)
          = (tr, InterpolationState.fixed tr.translation))
    ∧ (∀ s, update_fixed tick tr (InterpolationState.fixed s)
        = (tr, InterpolationState.fixed s)) := by
  refine ⟨rfl, fun s e ct hct => ?_, fun s => rfl⟩
  unfold update_fixed
  dsimp only
  rw [if_neg hct]

/-- C5 (witness): a host-overwritten `Interpolated` state (recorded tick 5,
transform last changed at 9) collapses to `Fixed` at the transform's
current translation. -/
theorem update_fixed_spec_witness :
    update_fixed 4 ⟨⟨2, 3⟩, 9⟩ (InterpolationState.interpolated ⟨0, 0⟩ ⟨1, 1⟩ 5)
      = (⟨⟨2, 3⟩, 9⟩, InterpolationState.fixed ⟨2, 3⟩) :=
  (update_fixed_spec 4 ⟨⟨2, 3⟩, 9⟩).2.1 ⟨0, 0⟩ ⟨1, 1⟩ 5 (by decide)

end ClaimC5

section ClaimC7

/-- C7 (confirmed): whenever the state is neither `Fixed` with a transform
that moved away from its start nor `Interpolated` with a change tick equal
to the transform's last-change tick, `update_render` transitions the FSM to
`None` and leaves the transform untouched — so an external transform write
between ticks (which bumps the last-change tick) never leaves a visible
lerp tail. -/
theorem update_render_collapses_to_none (tick : ℕ) (α : ℚ)
    (tr : TransformState) (st : InterpolationState)
    (hfixed : ∀ s, st = InterpolationState.fixed s → tr.translation = s)
    (hinterp : ∀ s e ct, st = InterpolationState.interpolated s e ct →
        tr.last_changed ≠ ct) :
    update_render tick α tr st = (tr, InterpolationState.none) := by
  cases st with
  | none => rfl
  | fixed s =>
    have hs := hfixed s rfl
    unfold update_render
    dsimp only
    rw [if_neg (not_not_intro hs)]
  | interpolated s e ct =>
    have hct := hinterp s e ct rfl
    unfold update_render
    dsimp only
    rw [if_neg hct]

/-- C7 (witness): the teleport scenario — the host wrote the transform
(last-change tick 8) after the FSM's own write (recorded tick 6); the next
render collapses to `None` with the transform left at the host's value. -/
theorem update_render_collapses_to_none_witness :
    update_render 11 (1 / 2) ⟨⟨5, 5⟩, 8⟩
        (InterpolationState.interpolated ⟨0, 0⟩ ⟨1, 1⟩ 6)
      = (⟨⟨5, 5⟩, 8⟩, InterpolationState.none) :=
  update_render_collapses_to_none 11 (1 / 2) ⟨⟨5, 5⟩, 8⟩
    (InterpolationState.interpolated ⟨0, 0⟩ ⟨1, 1⟩ 6)
    (fun s hs => by simp at hs)
    (fun s e ct hc => by injection hc with h1 h2 h3; subst h3; decide)

end ClaimC7

section ClaimC8

/-- C8 (confirmed): an agent whose velocity is exactly zero, or whose cached
tile is `None`, is skipped entirely by `process`: its transform and velocity
come out unchanged, so it ends the step at the same physical position
(invariant I5). -/
theorem processAgent_skip (sqrt : ℚ → ℚ) (dt : ℚ) (id : ℕ) (radius : ℚ)
    (transform : Vec2) (state : AgentState) (velocity : Vec2)
    (layer : Option LayerC) (index : TileIndex)
    (targets : ℕ → Option (ℚ × AgentState)) (isSolid : Tile → Bool)
    (h : velocity = 0 ∨ state.tile = Option.none) :
    processAgent sqrt dt id radius transform state velocity layer index targets isSolid
      = (transform, velocity) := by
  unfold processAgent
  rcases h with h | h
  · rw [if_pos h]
  · by_cases hv : velocity = 0
    · rw [if_pos hv]
    · rw [if_neg hv, h]

/-- C8 (witness): a zero-velocity agent with a populated index bucket at its
tile comes out of `process` with transform and velocity unchanged. -/
theorem processAgent_skip_witness :
    processAgent (fun _ => 0) 1 0 (1 / 4) ⟨1, 2⟩
        ⟨⟨1, 2⟩, ⟨0, 0⟩, some ⟨0, 0, 0⟩⟩ 0 (some ⟨1⟩)
        (fun t => if t = ⟨0, 0, 0⟩ then some [0, 3] else Option.none)
        (fun _ => Option.none) (fun _ => false)
      = (⟨1, 2⟩, 0) :=
  processAgent_skip (fun _ => 0) 1 0 (1 / 4) ⟨1, 2⟩
    ⟨⟨1, 2⟩, ⟨0, 0⟩, some ⟨0, 0, 0⟩⟩ 0 (some ⟨1⟩)
    (fun t => if t = ⟨0, 0, 0⟩ then some [0, 3] else Option.none)
    (fun _ => Option.none) (fun _ => false) (Or.inl rfl)

end ClaimC8
